import Mathlib

/-!
# Verification of the RomanProject RAG vector-store subsystem

Shallow embedding of the conversation RAG subsystem of the repository
(`src/rag/conversation_store.py`, `src/rag/conversation_retriever.py`,
`src/rag/conversation_indexer.py`, and the cosine-similarity scan shared with
`src/search/embeddings_manager.py`), together with theorems settling the
frozen claims C1–C10 about it.

Python strings are modelled as `List Char`; Python `int` values that stay
non-negative in every modelled execution are `Nat`.
-/

namespace RomanRag

/-! ## Python character-class helpers

`isPySpace` models the characters Python's `str.strip()` and the regex
class `\s` treat as whitespace (the ASCII ones; the modelled inputs contain
no exotic Unicode spaces). -/

def isPySpace (c : Char) : Bool :=
  c.toNat = 32 || c.toNat = 9 || c.toNat = 10 || c.toNat = 13 ||
  c.toNat = 11 || c.toNat = 12

def isAsciiDigit (c : Char) : Bool :=
  48 ≤ c.toNat && c.toNat ≤ 57

/-- Cyrillic uppercase range `А`–`Я` (U+0410–U+042F). -/
def isCyrUpper (c : Char) : Bool :=
  0x410 ≤ c.toNat && c.toNat ≤ 0x42F

/-- Cyrillic lowercase range `а`–`я` (U+0430–U+044F). -/
def isCyrLower (c : Char) : Bool :=
  0x430 ≤ c.toNat && c.toNat ≤ 0x44F

/-- Letter `Ё` (U+0401). -/
def isYoUpper (c : Char) : Bool := c.toNat = 0x401

/-- Letter `ё` (U+0451). -/
def isYoLower (c : Char) : Bool := c.toNat = 0x451

def isAsciiAlpha (c : Char) : Bool :=
  (97 ≤ c.toNat && c.toNat ≤ 122) || (65 ≤ c.toNat && c.toNat ≤ 90)

/-- Python regex `\w` restricted to the alphabets the data model uses
(ASCII letters/digits/underscore and Cyrillic letters). -/
def isWordChar (c : Char) : Bool :=
  isAsciiAlpha c || isAsciiDigit c || c = '_' ||
  isCyrUpper c || isCyrLower c || isYoUpper c || isYoLower c

/-- Case folding as Python's `str.lower()` / `re.IGNORECASE` perform it on the
ASCII and Cyrillic letters the sources use. -/
def pyLower (c : Char) : Char :=
  if 65 ≤ c.toNat && c.toNat ≤ 90 then Char.ofNat (c.toNat + 32)
  else if isCyrUpper c then Char.ofNat (c.toNat + 0x20)
  else if isYoUpper c then Char.ofNat 0x451
  else c

def lowerList (s : List Char) : List Char := s.map pyLower

/-- Python `str.strip()`: drop leading and trailing whitespace. -/
def pyStrip (s : List Char) : List Char :=
  ((s.dropWhile isPySpace).reverse.dropWhile isPySpace).reverse

/-- Python's substring test `needle in hay`. -/
def hasSubstr (hay needle : List Char) : Bool :=
  if needle.isPrefixOf hay then true
  else match hay with
    | [] => false
    | _ :: t => hasSubstr t needle

/-- Python slice `s[a:b]` for `0 ≤ a ≤ b` (clamped at the end of the list). -/
def pySlice (s : List Char) (a b : Nat) : List Char :=
  (s.drop a).take (b - a)

/-- Character lookup `s[i]`; the default is a NUL character that belongs to
none of the character classes above, and every modelled use is in bounds. -/
def charAt (s : List Char) (i : Nat) : Char :=
  s.getD i (Char.ofNat 0)

/-! ## Chunker — `ConversationStore._split_into_chunks`

The Python loop is embedded with explicit fuel; `none` models
non-termination of the `while` loop.  Fuel `content.length + 1` is enough
whenever the loop makes strict forward progress, which theorem
`splitGo_isSome` below shows to be the case exactly in the configurations
with `overlap < maxChunkSize`. -/

def isSentenceEnd (c : Char) : Bool :=
  c = '.' || c = '!' || c = '?'

/-- Models `for i in range(hi, lo, -1): if content[i] in '.!?': return i` —
the first (largest) index `i` with `lo < i ≤ hi` holding a sentence
terminator, scanning downward. -/
def scanPunct (content : List Char) (lo : Nat) : Nat → Option Nat
  | 0 => none
  | i + 1 =>
    if i + 1 ≤ lo then none
    else if isSentenceEnd (charAt content (i + 1)) then some (i + 1)
    else scanPunct content lo i

/-- Models `content.rfind(' ', lo, hi)`: the largest index `i` with
`lo ≤ i < hi` and `content[i] = ' '`.  The argument of the auxiliary scan is
the exclusive upper bound. -/
def rfindSpace (content : List Char) (lo : Nat) : Nat → Option Nat
  | 0 => none
  | j + 1 =>
    if j < lo then none
    else if charAt content j = ' ' then some j
    else rfindSpace content lo j

/-- The `while start < len(content)` loop body of `_split_into_chunks`.
Returns `none` when the fuel runs out, i.e. when the Python loop would
still be running after `fuel` iterations. -/
def splitGo (content : List Char) (maxChunkSize overlap : Nat) :
    Nat → Nat → List (List Char) → Option (List (List Char))
  | 0, _, _ => none
  | fuel + 1, start, acc =>
    if start < content.length then
      -- `end = start + max_chunk_size`
      if content.length ≤ start + maxChunkSize then
        -- last chunk: `chunks.append(content[start:]); break`
        some (acc ++ [content.drop start])
      else
        match scanPunct content (start + overlap) (start + maxChunkSize) with
        | some i =>
          -- `good_break = i + 1`
          splitGo content maxChunkSize overlap fuel (i + 1 - overlap)
            (acc ++ [pySlice content start (i + 1)])
        | none =>
          match rfindSpace content (start + overlap) (start + maxChunkSize) with
          | some sb =>
            splitGo content maxChunkSize overlap fuel (sb - overlap + 1)
              (acc ++ [pySlice content start sb])
          | none =>
            splitGo content maxChunkSize overlap fuel (start + maxChunkSize - overlap)
              (acc ++ [pySlice content start (start + maxChunkSize)])
    else some acc

/-- Embeds `ConversationStore._split_into_chunks(content, max_chunk_size, overlap)`.
`none` models non-termination of the loop. -/
def splitIntoChunks (content : List Char) (maxChunkSize overlap : Nat) :
    Option (List (List Char)) :=
  if content.length ≤ maxChunkSize then some [content]
  else
    (splitGo content maxChunkSize overlap (content.length + 1) 0 []).map
      fun cs => (cs.map pyStrip).filter fun c => !c.isEmpty

/-! ## Sanitizer — `ConversationStore._clean_content`

Each `re.sub` of the source is embedded as a matcher specialised to its
pattern (with Python's leftmost, greedy, backtracking semantics) plus a
generic substitution loop.  Every pattern in the source matches at least one
character, so the loops advance. -/

def isPhoneSep (c : Char) : Bool :=
  isPySpace c || c = '-' || c = '(' || c = ')'

/-- Pattern `\d{n}` at position `p`: succeeds with the end position. -/
def matchDigits (s : List Char) (p n : Nat) : Option Nat :=
  if (List.range n).all fun k => isAsciiDigit (charAt s (p + k)) then some (p + n)
  else none

/-- Pattern `[\s\-\(\)]?` with greedy backtracking: try consuming one separator,
else none, before running the continuation. -/
def withSep (s : List Char) (p : Nat) (k : Nat → Option Nat) : Option Nat :=
  (if isPhoneSep (charAt s p) then k (p + 1) else none) <|> k p

/-- Pattern `[\s\-\(\)]?(\d{3})[\s\-\(\)]?(\d{3})[\s\-\(\)]?(\d{2})[\s\-\(\)]?(\d{2})`. -/
def phoneTail (s : List Char) (p : Nat) : Option Nat :=
  withSep s p fun p1 => (matchDigits s p1 3).bind fun p2 =>
  withSep s p2 fun p3 => (matchDigits s p3 3).bind fun p4 =>
  withSep s p4 fun p5 => (matchDigits s p5 2).bind fun p6 =>
  withSep s p6 fun p7 => matchDigits s p7 2

/-- The phone pattern
`(\+7|8|7)?[\s\-\(\)]?(\d{3})[\s\-\(\)]?(\d{3})[\s\-\(\)]?(\d{2})[\s\-\(\)]?(\d{2})`
at position `p`; returns the end position of the match. -/
def matchPhoneAt (s : List Char) (p : Nat) : Option Nat :=
  (if charAt s p = '+' && charAt s (p + 1) = '7' then phoneTail s (p + 2) else none) <|>
  (if charAt s p = '8' then phoneTail s (p + 1) else none) <|>
  (if charAt s p = '7' then phoneTail s (p + 1) else none) <|>
  phoneTail s p

/-- Models the `re.sub` scan: leftmost match wins, non-overlapping, scanning resumes at
the match end.  All matchers used here consume at least one character; the
`max e (p + 1)` only restates that for termination. -/
def reSubGo (s : List Char) (matchAt : List Char → Nat → Option Nat)
    (repl : List Char) : Nat → Nat → List Char
  | p, 0 => s.drop p
  | p, fuel + 1 =>
    if p < s.length then
      match matchAt s p with
      | some e => repl ++ reSubGo s matchAt repl (max e (p + 1)) fuel
      | none => charAt s p :: reSubGo s matchAt repl (p + 1) fuel
    else []

def reSub (matchAt : List Char → Nat → Option Nat) (repl s : List Char) :
    List Char :=
  reSubGo s matchAt repl 0 (s.length + 1)

/-- Length of the maximal run of characters satisfying `isC` starting at `p`. -/
def runLenGo (isC : Char → Bool) (s : List Char) : Nat → Nat → Nat
  | _, 0 => 0
  | p, fuel + 1 =>
    if p < s.length && isC (charAt s p) then runLenGo isC s (p + 1) fuel + 1
    else 0

def runLen (isC : Char → Bool) (s : List Char) (p : Nat) : Nat :=
  runLenGo isC s p (s.length + 1)

/-- Greedy backtracking over a repetition count: try `n, n-1, …, 1`. -/
def downFirst (f : Nat → Option Nat) : Nat → Option Nat
  | 0 => none
  | n + 1 => f (n + 1) <|> downFirst f n

def isWordAt (s : List Char) (i : Nat) : Bool :=
  match s.get? i with
  | some c => isWordChar c
  | none => false

/-- Regex `\b` at position `p` (positions outside the string are non-word). -/
def wordBoundary (s : List Char) : Nat → Bool
  | 0 => isWordAt s 0
  | q + 1 => isWordAt s (q + 1) != isWordAt s q

def isLocalChar (c : Char) : Bool :=
  isAsciiAlpha c || isAsciiDigit c || c = '.' || c = '_' || c = '%' ||
  c = '+' || c = '-'

def isDomainChar (c : Char) : Bool :=
  isAsciiAlpha c || isAsciiDigit c || c = '.' || c = '-'

/-- The class `[A-Z|a-z]` of the email pattern (it literally contains `|`). -/
def isTldChar (c : Char) : Bool :=
  isAsciiAlpha c || c = '|'

/-- The email pattern `\b[A-Za-z0-9._%+-]+@[A-Za-z0-9.-]+\.[A-Z|a-z]{2,}\b`. -/
def matchEmailAt (s : List Char) (p : Nat) : Option Nat :=
  if wordBoundary s p then
    downFirst (fun l =>
      if charAt s (p + l) = '@' then
        let q := p + l + 1
        downFirst (fun d =>
          if charAt s (q + d) = '.' then
            let r := q + d + 1
            downFirst (fun t =>
              if 2 ≤ t && wordBoundary s (r + t) then some (r + t) else none)
              (runLen isTldChar s r)
          else none)
          (runLen isDomainChar s q)
      else none)
      (runLen isLocalChar s p)
  else none

/-- The class `[А-Яа-я0-9\s\-,.]` of the address pattern. -/
def isAddrClassChar (c : Char) : Bool :=
  isCyrUpper c || isCyrLower c || isAsciiDigit c || isPySpace c ||
  c = '-' || c = ',' || c = '.'

/-- Matches the keyword part of `rf'{keyword}[\s]*[А-Яа-я0-9\s\-,.]{1,50}'`:
literal characters case-insensitively (`re.IGNORECASE`), `.` as the regex
wildcard (any character except a newline). -/
def matchKw (s : List Char) : List Char → Nat → Option Nat
  | [], p => some p
  | k :: ks, p =>
    if p < s.length then
      if k = '.' then
        if charAt s p ≠ '\n' then matchKw s ks (p + 1) else none
      else if pyLower (charAt s p) = pyLower k then matchKw s ks (p + 1)
      else none
    else none

/-- Pattern `[\s]*[А-Яа-я0-9\s\-,.]{1,50}` with greedy backtracking (`[\s]*` tries the
longest whitespace run first, then the class takes 1–50 characters greedily). -/
def addrTail (s : List Char) (p : Nat) : Option Nat :=
  let withWs (w : Nat) : Option Nat :=
    let m := min (runLen isAddrClassChar s (p + w)) 50
    if 1 ≤ m then some (p + w + m) else none
  downFirst withWs (runLen isPySpace s p) <|> withWs 0

def matchAddrAt (kw : List Char) (s : List Char) (p : Nat) : Option Nat :=
  (matchKw s kw p).bind fun q => addrTail s q

def addressKeywords : List (List Char) :=
  ["улица".data, "ул.".data, "проспект".data, "пр.".data, "переулок".data,
   "пер.".data, "дом".data, "д.".data, "квартира".data, "кв.".data]

/-- The address-masking loop: for each keyword present as a substring of the
lowercased text, substitute `rf'{keyword}[\s]*[А-Яа-я0-9\s\-,.]{1,50}'` by
`f'{keyword} [ADDRESS]'`. -/
def addressStage (cleaned : List Char) : List Char :=
  addressKeywords.foldl
    (fun cl kw =>
      if hasSubstr (lowerList cl) kw then
        reSub (matchAddrAt kw) (kw ++ " [ADDRESS]".data) cl
      else cl)
    cleaned

/-- The name pattern `\b[А-ЯЁ][а-яё]{2,}\b`. -/
def matchNameAt (s : List Char) (p : Nat) : Option Nat :=
  if wordBoundary s p && p < s.length &&
      (isCyrUpper (charAt s p) || isYoUpper (charAt s p)) then
    let q := p + 1
    downFirst
      (fun r => if 2 ≤ r && wordBoundary s (q + r) then some (q + r) else none)
      (runLen (fun c => isCyrLower c || isYoLower c) s q)
  else none

/-- Models `re.findall(name_pattern, cleaned)`: the matched slices, left to right,
non-overlapping. -/
def findAllGo (s : List Char) : Nat → Nat → List (List Char)
  | _, 0 => []
  | p, fuel + 1 =>
    if p < s.length then
      match matchNameAt s p with
      | some e => pySlice s p e :: findAllGo s (max e (p + 1)) fuel
      | none => findAllGo s (p + 1) fuel
    else []

def findNames (s : List Char) : List (List Char) :=
  findAllGo s 0 (s.length + 1)

/-- Python `str.replace(target, repl)` (all occurrences, left to right).
The source only calls it with the non-empty matches of the name pattern. -/
def replaceAllGo (target repl : List Char) : List Char → Nat → List Char
  | l, 0 => l
  | l, fuel + 1 =>
    match l with
    | [] => []
    | c :: rest =>
      if target.isPrefixOf (c :: rest) then
        repl ++ replaceAllGo target repl ((c :: rest).drop target.length) fuel
      else c :: replaceAllGo target repl rest fuel

def replaceAll (s target repl : List Char) : List Char :=
  if target.isEmpty then s else replaceAllGo target repl s (s.length + 1)

def nameTriggers : List (List Char) :=
  ["меня зовут".data, "мое имя".data, "я ".data, " я ".data]

def nameExclusions : List (List Char) :=
  ["Янтарь".data, "Браслет".data, "Серьги".data, "Кольцо".data]

/-- Gate `any(word in cleaned.lower() for word in ['меня зовут', 'мое имя', 'я ', ' я '])` —
the message-level gate of the name-masking step. -/
def hasNameTrigger (s : List Char) : Bool :=
  nameTriggers.any fun t => hasSubstr (lowerList s) t

/-- The name-masking step: if any trigger phrase occurs in the lowercased
text, every match of the name pattern that is not in the product-exclusion
list is replaced (all of its occurrences) by `[NAME]`. -/
def nameStage (cleaned : List Char) : List Char :=
  if hasNameTrigger cleaned then
    (findNames cleaned).foldl
      (fun cl name =>
        if nameExclusions.contains name then cl
        else replaceAll cl name ("[NAME]").data)
      cleaned
  else cleaned

def phoneStage (s : List Char) : List Char :=
  reSub matchPhoneAt ("[PHONE]").data s

def emailStage (s : List Char) : List Char :=
  reSub matchEmailAt ("[EMAIL]").data s

/-- Embeds `ConversationStore._clean_content`. -/
def cleanContent (content : List Char) : List Char :=
  if content.isEmpty then content
  else pyStrip (nameStage (addressStage (emailStage (phoneStage content))))

/-! ## Store — `ConversationStore` persistence state

Rows of the two SQLite tables.  Embeddings are rationals standing for the
serialized float arrays; `_get_embedding` (network call, errors absorbed into
a zero vector inside that helper) is abstracted as a total function
parameter `embed`. -/

structure MsgRow where
  messageId : String
  customerId : String
  dealId : Option String
  senderType : String
  content : String
  cleanedContent : String
  timestamp : Nat
  intent : Option String
  category : Option String
deriving DecidableEq, Repr

structure ChunkRow where
  messageId : String
  chunkIndex : Nat
  content : String
  embedding : List ℚ
deriving DecidableEq, Repr

structure RagState where
  messages : List MsgRow
  chunks : List ChunkRow
deriving DecidableEq, Repr

/-- Storage-failure injection for `store_message`: no failure, a failure
inside the first `with sqlite3.connect` block (message upsert + old-chunk
delete, which then rolls back), or a failure at the `n`-th executed chunk
`INSERT` (each chunk insert runs in its own connection/transaction). -/
inductive StoreFault where
  | noFault : StoreFault
  | failFirstTxn : StoreFault
  | failChunkInsert (n : Nat) : StoreFault
deriving DecidableEq, Repr

/-- Helper: `_split_into_chunks` at its default arguments `(500, 50)`; theorem
`splitIntoChunks_default_isSome` below shows the option is never `none`,
so the `[]` default is inert. -/
def splitChunksDefault (cleaned : List Char) : List (List Char) :=
  (splitIntoChunks cleaned 500 50).getD []

/-- The `for chunk_index, chunk_content in enumerate(chunks)` loop of
`store_message`: blank chunks are skipped (`continue`), every other chunk is
embedded and inserted in its own committed transaction; `k` counts the
`INSERT` statements actually executed, which is where `failChunkInsert`
strikes. -/
def insertChunksGo (fault : StoreFault) (embed : String → List ℚ)
    (mid : String) : List (Nat × String) → Nat → RagState →
    Except Unit Unit × RagState
  | [], _, st => (Except.ok (), st)
  | (i, c) :: rest, k, st =>
    if (pyStrip c.data).isEmpty then insertChunksGo fault embed mid rest k st
    else if fault = StoreFault.failChunkInsert k then (Except.error (), st)
    else insertChunksGo fault embed mid rest (k + 1)
      { st with chunks := st.chunks ++ [⟨mid, i, c, embed c⟩] }

/-- The body of `ConversationStore.store_message` (the part inside `try`):
first transaction `INSERT OR REPLACE` of the message row together with
`DELETE FROM conversation_chunks WHERE message_id = ?`, then chunking of the
cleaned content and one insert transaction per chunk.  Returns the error
status of the body and the store state at exit. -/
def storeMessageBody (fault : StoreFault) (embed : String → List ℚ)
    (st : RagState) (messageId customerId senderType content : String)
    (dealId intent category : Option String) (now : Nat) :
    Except Unit Unit × RagState :=
  match fault with
  | StoreFault.failFirstTxn => (Except.error (), st)
  | _ =>
    insertChunksGo fault embed messageId
      (((splitChunksDefault (String.mk (cleanContent content.data)).data).map
        String.mk).enum) 0
      { messages := st.messages.filter (fun m => m.messageId ≠ messageId) ++
          [⟨messageId, customerId, dealId, senderType, content,
            String.mk (cleanContent content.data), now, intent, category⟩],
        chunks := st.chunks.filter fun c => c.messageId ≠ messageId }

/-- Embeds `ConversationStore.store_message`: the whole body is wrapped in
`try/except` — any exception is logged and turned into the return value
`False`; the state stays as committed so far. -/
def storeMessage (fault : StoreFault) (embed : String → List ℚ)
    (st : RagState) (messageId customerId senderType content : String)
    (dealId intent category : Option String) (now : Nat) : Bool × RagState :=
  match storeMessageBody fault embed st messageId customerId senderType
      content dealId intent category now with
  | (Except.ok _, st') => (true, st')
  | (Except.error _, st') => (false, st')

/-- The body of `ConversationStore.cleanup_old_messages` (inside `try`):
one transaction deleting the chunks of old messages and then the old
messages, returning the deleted-message count.  A storage failure rolls the
transaction back. -/
def cleanupBody (fault : Bool) (st : RagState) (cutoff : Nat) :
    Except Unit Nat × RagState :=
  if fault then (Except.error (), st)
  else
    let oldIds :=
      (st.messages.filter fun m => m.timestamp < cutoff).map (·.messageId)
    let chunks' := st.chunks.filter fun c => !oldIds.contains c.messageId
    let msgs' := st.messages.filter fun m => !decide (m.timestamp < cutoff)
    (Except.ok (st.messages.countP fun m => decide (m.timestamp < cutoff)),
     ⟨msgs', chunks'⟩)

/-- Embeds `ConversationStore.cleanup_old_messages`: exceptions are logged and the
function returns `0`. -/
def cleanupOldMessages (fault : Bool) (st : RagState) (cutoff : Nat) :
    Nat × RagState :=
  match cleanupBody fault st cutoff with
  | (Except.ok n, st') => (n, st')
  | (Except.error _, st') => (0, st')

/-! ## Cosine similarity — the scan of `search_similar_messages` and
`EmbeddingsManager.semantic_search`

Both call sites compute
`sklearn.metrics.pairwise.cosine_similarity(query_vector, chunk_vector)[0][0]`,
which row-normalizes each vector (a zero-norm row is left as the zero
vector — sklearn substitutes norm 1 for zero norms) and takes the dot
product.  Floats are modelled as reals. -/

noncomputable section

def dotList (a b : List ℝ) : ℝ := (a.zipWith (· * ·) b).sum

def sumSq (a : List ℝ) : ℝ := (a.map fun x => x * x).sum

def vecNorm (a : List ℝ) : ℝ := Real.sqrt (sumSq a)

/-- Models `sklearn.preprocessing.normalize` on one row: rows of zero norm are kept
(the divisor is replaced by 1), others are divided by their norm. -/
def normalizeVec (a : List ℝ) : List ℝ :=
  if vecNorm a = 0 then a else a.map fun x => x / vecNorm a

def cosineSimilarity (a b : List ℝ) : ℝ :=
  dotList (normalizeVec a) (normalizeVec b)

end

/-! ## Retriever — `ConversationRetriever.get_relevant_context`

The three store searches are abstracted by the result lists they would
return (`dealResults`, `customerResults`, `fallbackResults`); the cascade
logic, metadata bookkeeping, deduplication, sorting and truncation follow
the source.  `searchCalls` records, in order, which `_search_by_*` calls the
cascade issues (1 = deal, 2 = customer, 3 = intent/category fallback) — the
observable the tier diagnostics of the claims are about. -/

structure Fragment where
  messageId : String
  chunkIndex : Nat
  dealId : Option String
  similarity : ℚ
deriving DecidableEq, Repr

structure SearchMetadata where
  searchesPerformed : Nat
  totalFragmentsFound : Nat
  similarityThresholdsUsed : List ℚ
deriving DecidableEq, Repr

structure RetrieverOutput where
  rawFragments : List Fragment
  metadata : SearchMetadata
  totalRelevantFragments : Nat
  searchCalls : List Nat
deriving DecidableEq, Repr

/-- Python truthiness of an optional-string argument (`if deal_id:`): `None`
and the empty string are falsy. -/
def pyTruthy : Option String → Bool
  | none => false
  | some s => !s.isEmpty

def highSimilarityThreshold : ℚ := 3 / 4
def defaultSimilarityThreshold : ℚ := 3 / 5
def lowSimilarityThreshold : ℚ := 2 / 5

/-- Embeds `_deduplicate_fragments`: keep the first occurrence of each
`(message_id, chunk_index)` key. -/
def dedupGo : List Fragment → List (String × Nat) → List Fragment
  | [], _ => []
  | f :: rest, seen =>
    if seen.contains (f.messageId, f.chunkIndex) then dedupGo rest seen
    else f :: dedupGo rest ((f.messageId, f.chunkIndex) :: seen)

def dedupFragments (l : List Fragment) : List Fragment := dedupGo l []

/-- Stable insertion for descending sort by similarity (Python's `sorted`
with `reverse=True` is stable). -/
def insertDesc (f : Fragment) : List Fragment → List Fragment
  | [] => [f]
  | g :: rest =>
    if g.similarity < f.similarity then f :: g :: rest
    else g :: insertDesc f rest

def sortBySimDesc (l : List Fragment) : List Fragment :=
  l.foldl (fun acc f => insertDesc f acc) []

/-- The deal-exclusion filter of `_search_by_customer`
(`if exclude_deal_id: results = [r for r in results if r.get('deal_id') != exclude_deal_id]`). -/
def excludeDeal (dealId : Option String) (l : List Fragment) : List Fragment :=
  if pyTruthy dealId then l.filter fun r => r.dealId ≠ dealId else l

/-- The fragments collected by tiers 1 and 2 (shared with the statement of
the tier-3 gate). -/
def collectedTier12 (dealId : Option String)
    (dealResults customerResults : List Fragment) : List Fragment :=
  (if pyTruthy dealId then dealResults else []) ++ excludeDeal dealId customerResults

/-- Embeds `ConversationRetriever.get_relevant_context` (success path). -/
def getRelevantContext (dealId : Option String)
    (dealResults customerResults fallbackResults : List Fragment) :
    RetrieverOutput :=
  -- 1. search by customer and deal — only when `deal_id` is truthy
  let calls1 : List Nat := if pyTruthy dealId then [1] else []
  let meta1 : SearchMetadata :=
    if pyTruthy dealId && !dealResults.isEmpty then
      ⟨1, dealResults.length, [highSimilarityThreshold]⟩
    else ⟨0, 0, []⟩
  let frags1 := if pyTruthy dealId then dealResults else []
  -- 2. search by customer — issued unconditionally
  let customerFiltered := excludeDeal dealId customerResults
  let meta2 : SearchMetadata :=
    if !customerFiltered.isEmpty then
      ⟨meta1.searchesPerformed + 1,
       meta1.totalFragmentsFound + customerFiltered.length,
       meta1.similarityThresholdsUsed ++ [defaultSimilarityThreshold]⟩
    else meta1
  let fragsA := frags1 ++ customerFiltered
  -- 3. intent/category fallback — only when fewer than 5 fragments so far
  let useFallback := fragsA.length < 5
  let fragsB := if useFallback then fragsA ++ fallbackResults else fragsA
  let meta3 : SearchMetadata :=
    if useFallback && !fallbackResults.isEmpty then
      ⟨meta2.searchesPerformed + 1,
       meta2.totalFragmentsFound + fallbackResults.length,
       meta2.similarityThresholdsUsed ++ [lowSimilarityThreshold]⟩
    else meta2
  let sortedFragments := sortBySimDesc (dedupFragments fragsB)
  { rawFragments := sortedFragments.take 10,
    metadata := meta3,
    totalRelevantFragments := sortedFragments.length,
    searchCalls := calls1 ++ [2] ++ if useFallback then [3] else [] }

/-! ## Indexer — `ConversationIndexer` and its ingestion queue -/

structure QueuedMessage where
  messageId : String
  customerId : String
  senderType : String
  content : String
  dealId : Option String
  intent : Option String
  category : Option String
  timestamp : Nat
deriving DecidableEq, Repr

structure IndexerState where
  queue : List QueuedMessage
  isProcessing : Bool
deriving DecidableEq, Repr

/-- Constant: `ConversationIndexer.__init__` creates `asyncio.Queue()` with the
default `maxsize=0`, which in asyncio means an unbounded queue. -/
def asyncioQueueMaxsize : Nat := 0

/-- Models `asyncio.Queue.full()`: a queue with `maxsize <= 0` is never full. -/
def queueFull (maxsize qsize : Nat) : Bool :=
  decide (0 < maxsize) && decide (maxsize ≤ qsize)

/-- Models when `await queue.put(item)` suspends the caller: exactly when the queue is
full. -/
def putWouldBlock (maxsize qsize : Nat) : Bool := queueFull maxsize qsize

def anyKw (contentLower : List Char) (kws : List String) : Bool :=
  kws.any fun k => hasSubstr contentLower k.data

/-- Embeds `ConversationIndexer._detect_intent`. -/
def detectIntent (content : String) (senderType : String) : Option String :=
  if content.isEmpty then none
  else
    let cl := lowerList content.data
    if senderType = "customer" then
      if anyKw cl ["купить", "заказать", "приобрести", "оформить заказ"] then
        some ("purchase_intent")
      else if anyKw cl ["цена", "стоимость", "сколько стоит", "стоит"] then
        some ("price_inquiry")
      else if anyKw cl ["доставка", "доставить", "получить", "привезти"] then
        some ("delivery_inquiry")
      else if anyKw cl ["размер", "размеры", "какой размер", "подойдет ли"] then
        some ("size_inquiry")
      else if anyKw cl ["наличие", "есть ли", "в наличии", "имеется"] then
        some ("availability_inquiry")
      else if anyKw cl ["возврат", "обмен", "вернуть", "поменять"] then
        some ("return_inquiry")
      else if anyKw cl ["рекомендуй", "посоветуй", "подбери", "что лучше"] then
        some ("recommendation_request")
      else if anyKw cl ["спасибо", "благодарю", "отлично", "хорошо"] then
        some ("gratitude")
      else if anyKw cl ["здравствуй", "привет", "добрый день", "добро"] then
        some ("greeting")
      else some ("general_inquiry")
    else if senderType = "bot" then
      if anyKw cl ["рекомендую", "советую", "подойдет", "предлагаю"] then
        some ("recommendation_given")
      else if anyKw cl ["цена", "стоимость", "руб", "₽"] then
        some ("price_provided")
      else if anyKw cl ["доставка", "доставим", "получите"] then
        some ("delivery_info")
      else if anyKw cl ["в наличии", "есть", "доступен"] then
        some ("availability_confirmed")
      else if anyKw cl ["оформить", "заказать", "контакты"] then
        some ("order_assistance")
      else some ("general_inquiry")
    else if senderType = "manager" then
      if anyKw cl ["заказ оформлен", "заказ принят", "обработан"] then
        some ("order_processed")
      else if anyKw cl ["отправлен", "доставлен", "получен"] then
        some ("delivery_update")
      else if anyKw cl ["проблема", "вопрос", "уточнить"] then
        some ("clarification_needed")
      else some ("general_inquiry")
    else some ("general_inquiry")

/-- Embeds `ConversationIndexer._detect_category`. -/
def detectCategory (content : String) (senderType : String) : Option String :=
  if content.isEmpty then none
  else
    let cl := lowerList content.data
    if anyKw cl ["кольцо", "кольца"] then some ("rings")
    else if anyKw cl ["серьги", "серёжки"] then some ("earrings")
    else if anyKw cl ["браслет", "браслеты"] then some ("bracelets")
    else if anyKw cl ["кулон", "кулоны", "подвеска", "подвески"] then
      some ("pendants")
    else if anyKw cl ["бусы", "ожерелье", "ожерелья"] then some ("necklaces")
    else if anyKw cl ["брошь", "броши", "брошка"] then some ("brooches")
    else if anyKw cl ["янтарь", "янтарные", "янтарный"] then
      some ("amber_products")
    else if anyKw cl ["доставка", "курьер", "почта"] then some ("delivery")
    else if anyKw cl ["оплата", "платеж", "карта", "наличные"] then
      some ("payment")
    else if anyKw cl ["размер", "размеры", "обхват"] then some ("sizing")
    else if anyKw cl ["возврат", "обмен", "гарантия"] then some ("returns")
    else if senderType = "customer" then some ("customer_inquiry")
    else if senderType = "bot" then some ("bot_response")
    else if senderType = "manager" then some ("manager_communication")
    else some ("general")

def genMessageId (customerId : String) (now : Nat) (uuidHex : String) : String :=
  customerId ++ "_" ++ toString now ++ "_" ++ uuidHex

/-- Embeds `ConversationIndexer.index_message_async` up to and including the
`await self.indexing_queue.put(...)`: the id is generated when the argument
is falsy, intent and category are detected, and the record is appended to
the queue.  Because the queue is unbounded the `put` completes immediately —
the append is the whole synchronous effect (the `create_task` worker runs
later and only consumes). -/
def indexMessageAsync (st : IndexerState) (customerId senderType content : String)
    (dealId : Option String) (messageId : Option String) (now : Nat)
    (uuidHex : String) : String × IndexerState :=
  let mid :=
    match messageId with
    | some s => if s.isEmpty then genMessageId customerId now uuidHex else s
    | none => genMessageId customerId now uuidHex
  let intent := detectIntent content senderType
  let category := detectCategory content senderType
  (mid,
   { st with queue := st.queue ++
      [⟨mid, customerId, senderType, content, dealId, intent, category, now⟩] })

/-- Runs `n` successive `index_message_async` calls against an idle indexer
(no worker consuming). -/
def enqueueN : Nat → IndexerState
  | 0 => ⟨[], false⟩
  | n + 1 =>
    (indexMessageAsync (enqueueN n) ("c1") ("customer") ("привет") none none n ("u")).2

/-! ## Derived observables used in the claim statements -/

/-- The chunk rows the `store_message` loop inserts for a message whose
cleaned content is `cleaned` (blank chunks are skipped, indices come from
`enumerate`). -/
def expectedChunkRows (embed : String → List ℚ) (mid cleaned : String) :
    List ChunkRow :=
  ((splitChunksDefault cleaned.data).map String.mk).enum.filterMap
    fun ic =>
      if (pyStrip ic.2.data).isEmpty then none
      else some ⟨mid, ic.1, ic.2, embed ic.2⟩

/-- The number of chunk `INSERT` statements the `store_message` loop
executes for a message whose cleaned content is `cleaned` (the chunks whose
`strip()` is non-empty). -/
def insertCount (cleaned : String) : Nat :=
  (((splitChunksDefault cleaned.data).map String.mk).enum.filter
    fun ic => !(pyStrip ic.2.data).isEmpty).length

/-- Texts made of lowercase ASCII letters and spaces only: every sanitizer
stage is inert on them (no digit for the phone pattern, no `@` for the email
pattern, no Cyrillic address keyword or name-trigger substring). -/
def isPlainLowerAsciiOrSpace (c : Char) : Bool :=
  (97 ≤ c.toNat && c.toNat ≤ 122) || c.toNat = 32

/-! ## Chunker lemmas (claims C3 and C4) -/

theorem scanPunct_bounds (content : List Char) (lo : Nat) :
    ∀ i0 i, scanPunct content lo i0 = some i → lo < i ∧ i ≤ i0 := by
  intro i0
  induction i0 with
  | zero => intro i h; simp [scanPunct] at h
  | succ n ih =>
    intro i h
    unfold scanPunct at h
    split at h
    · exact absurd h (by simp)
    · split at h
      · have := Option.some.inj h
        omega
      · have := ih i h
        omega

theorem rfindSpace_bounds (content : List Char) (lo : Nat) :
    ∀ j0 j, rfindSpace content lo j0 = some j → lo ≤ j ∧ j < j0 := by
  intro j0
  induction j0 with
  | zero => intro j h; simp [rfindSpace] at h
  | succ n ih =>
    intro j h
    unfold rfindSpace at h
    split at h
    · exact absurd h (by simp)
    · split at h
      · have := Option.some.inj h
        omega
      · have := ih j h
        omega

theorem splitGo_isSome (content : List Char) (maxChunkSize overlap : Nat)
    (hov : overlap < maxChunkSize) :
    ∀ fuel start acc, content.length - start < fuel →
      (splitGo content maxChunkSize overlap fuel start acc).isSome := by
  intro fuel
  induction fuel with
  | zero => intro start acc h; omega
  | succ n ih =>
    intro start acc h
    unfold splitGo
    split
    case isTrue hstart =>
      split
      case isTrue hend => simp
      case isFalse hend =>
        cases hp : scanPunct content (start + overlap) (start + maxChunkSize) with
        | some i =>
          have hb := scanPunct_bounds content (start + overlap) _ _ hp
          exact ih _ _ (by omega)
        | none =>
          cases hs : rfindSpace content (start + overlap) (start + maxChunkSize) with
          | some sb =>
            have hb := rfindSpace_bounds content (start + overlap) _ _ hs
            exact ih _ _ (by omega)
          | none =>
            exact ih _ _ (by omega)
    case isFalse hstart => simp

theorem splitIntoChunks_isSome (content : List Char) (maxChunkSize overlap : Nat)
    (hov : overlap < maxChunkSize) :
    (splitIntoChunks content maxChunkSize overlap).isSome := by
  unfold splitIntoChunks
  split
  · simp
  · cases hgo : splitGo content maxChunkSize overlap (content.length + 1) 0 [] with
    | none =>
      have := splitGo_isSome content maxChunkSize overlap hov
        (content.length + 1) 0 [] (by omega)
      rw [hgo] at this
      simp at this
    | some cs => simp

theorem splitIntoChunks_default_isSome (content : List Char) :
    (splitIntoChunks content 500 50).isSome :=
  splitIntoChunks_isSome content 500 50 (by omega)

theorem pySlice_length_le (s : List Char) (a b : Nat) :
    (pySlice s a b).length ≤ b - a := by
  simp [pySlice]

theorem pyStrip_length_le (s : List Char) : (pyStrip s).length ≤ s.length := by
  have h1 := (List.dropWhile_sublist (l := s) (p := isPySpace)).length_le
  have h2 := (List.dropWhile_sublist
    (l := (s.dropWhile isPySpace).reverse) (p := isPySpace)).length_le
  simp only [pyStrip, List.length_reverse] at *
  omega

theorem splitGo_chunk_bound (content : List Char) (maxChunkSize overlap : Nat)
    (h1 : 1 ≤ overlap) :
    ∀ fuel start acc cs, (∀ c ∈ acc, c.length ≤ maxChunkSize + overlap) →
      splitGo content maxChunkSize overlap fuel start acc = some cs →
      ∀ c ∈ cs, c.length ≤ maxChunkSize + overlap := by
  intro fuel
  induction fuel with
  | zero => intro start acc cs hacc h; simp [splitGo] at h
  | succ n ih =>
    intro start acc cs hacc h
    unfold splitGo at h
    split at h
    case isTrue hstart =>
      split at h
      case isTrue hend =>
        have hcs := Option.some.inj h
        subst hcs
        intro c hc
        rcases List.mem_append.mp hc with h' | h'
        · exact hacc c h'
        · simp only [List.mem_singleton] at h'
          subst h'
          simp only [List.length_drop]
          omega
      case isFalse hend =>
        split at h
        case h_1 i hp =>
          have hb := scanPunct_bounds content (start + overlap) _ _ hp
          refine ih _ _ _ ?_ h
          intro c hc
          rcases List.mem_append.mp hc with h' | h'
          · exact hacc c h'
          · simp only [List.mem_singleton] at h'
            subst h'
            have := pySlice_length_le content start (i + 1)
            omega
        case h_2 hp =>
          split at h
          case h_1 sb hs =>
            have hb := rfindSpace_bounds content (start + overlap) _ _ hs
            refine ih _ _ _ ?_ h
            intro c hc
            rcases List.mem_append.mp hc with h' | h'
            · exact hacc c h'
            · simp only [List.mem_singleton] at h'
              subst h'
              have := pySlice_length_le content start sb
              omega
          case h_2 hs =>
            refine ih _ _ _ ?_ h
            intro c hc
            rcases List.mem_append.mp hc with h' | h'
            · exact hacc c h'
            · simp only [List.mem_singleton] at h'
              subst h'
              have := pySlice_length_le content start (start + maxChunkSize)
              omega
    case isFalse hstart =>
      have hcs := Option.some.inj h
      subst hcs
      exact hacc

/-- C4 (counterexample): the claim quantifies over "every max_len/overlap
configuration the contract admits", but for `overlap = max_chunk_size`
(e.g. both 2) the forced-break branch sets `start = end - overlap`, i.e.
back to the previous `start`: no forward progress.  On input `"aaaa"` the
loop never terminates — the embedded loop is still running after any number
of iterations. -/
theorem claim_c4_counterexample :
    splitIntoChunks ("aaaa".data) 2 2 = none ∧
    splitGo ("aaaa".data) 2 2 1000 0 [] = none := by
  have stuck : ∀ fuel acc, splitGo ("aaaa".data) 2 2 fuel 0 acc = none := by
    intro fuel
    induction fuel with
    | zero => intro acc; rfl
    | succ n ih =>
      intro acc
      show splitGo ("aaaa".data) 2 2 (n + 1) 0 acc = none
      unfold splitGo
      norm_num [scanPunct, rfindSpace, charAt, isSentenceEnd]
      exact ih _
  refine ⟨?_, stuck 1000 []⟩
  unfold splitIntoChunks
  norm_num
  rw [stuck]

/-- C4 (amended): whenever `overlap < max_chunk_size` — which the defaults
`(500, 50)` satisfy — every loop iteration strictly increases `start`
(the cut exceeds the previous start by more than the overlap backtrack),
so `_split_into_chunks` terminates on every input text: the fuelled
embedding returns a result within `len(content) + 1` iterations. -/
theorem claim_c4_amended (content : List Char) (maxChunkSize overlap : Nat)
    (hov : overlap < maxChunkSize) :
    (splitIntoChunks content maxChunkSize overlap).isSome :=
  splitIntoChunks_isSome content maxChunkSize overlap hov

theorem claim_c4_amended_witness :
    50 < 500 ∧ (splitIntoChunks ("привет, хочу кольцо".data) 500 50).isSome :=
  ⟨by norm_num, claim_c4_amended _ 500 50 (by norm_num)⟩

/-- C3 (counterexample): the claim fails in two ways.  A whitespace-only
text longer than `max_chunk_size` yields the empty chunk sequence (the
final comprehension drops blank chunks), refuting non-emptiness; and with
`overlap = 0` a sentence terminator at the hard boundary yields a chunk of
length `max_len + 1 > max_len + overlap`, refuting the length bound. -/
theorem claim_c3_counterexample :
    splitIntoChunks (List.replicate 6 ' ') 5 2 = some [] ∧
    splitIntoChunks ("abc.def".data) 3 0 =
      some ["abc.".data, "def".data] ∧
    ("abc.".data).length = 4 ∧ 3 + 0 < 4 := by
  refine ⟨by decide, by decide, by decide, by decide⟩

/-- C3 (amended): for `1 ≤ overlap < max_chunk_size`, `_split_into_chunks`
terminates and every returned chunk has length at most
`max_chunk_size + overlap`; when `len(text) ≤ max_chunk_size` the result is
exactly the single chunk `[text]` (this part needs no side condition).  The
sequence can be empty when the text is whitespace-only and longer than
`max_chunk_size`. -/
theorem claim_c3_amended (content : List Char) (maxChunkSize overlap : Nat)
    (h1 : 1 ≤ overlap) (h2 : overlap < maxChunkSize) :
    ∃ cs, splitIntoChunks content maxChunkSize overlap = some cs ∧
      (∀ c ∈ cs, c.length ≤ maxChunkSize + overlap) ∧
      (content.length ≤ maxChunkSize → cs = [content]) := by
  by_cases hlen : content.length ≤ maxChunkSize
  · refine ⟨[content], by simp [splitIntoChunks, hlen], ?_, fun _ => rfl⟩
    intro c hc
    simp only [List.mem_singleton] at hc
    subst hc
    omega
  · have hsome := splitGo_isSome content maxChunkSize overlap h2
      (content.length + 1) 0 [] (by omega)
    obtain ⟨cs0, hcs0⟩ := Option.isSome_iff_exists.mp hsome
    refine ⟨(cs0.map pyStrip).filter (fun c => !c.isEmpty), ?_, ?_, ?_⟩
    · simp [splitIntoChunks, hlen, hcs0]
    · intro c hc
      obtain ⟨hc1, _⟩ := List.mem_filter.mp hc
      obtain ⟨orig, ho, rfl⟩ := List.mem_map.mp hc1
      have hb := splitGo_chunk_bound content maxChunkSize overlap h1
        (content.length + 1) 0 [] cs0 (by simp) hcs0 orig ho
      have := pyStrip_length_le orig
      omega
    · intro h
      omega

theorem claim_c3_amended_witness :
    (1 ≤ 50 ∧ 50 < 500) ∧
    ∃ cs, splitIntoChunks ("hi".data) 500 50 = some cs ∧
      (∀ c ∈ cs, c.length ≤ 500 + 50) ∧
      (("hi".data).length ≤ 500 → cs = ["hi".data]) :=
  ⟨by norm_num, claim_c3_amended ("hi".data) 500 50 (by norm_num) (by norm_num)⟩

/-! ## Sanitizer lemmas (claims C5 and C6) -/

theorem charAt_false (P : Char → Bool) (s : List Char) (i : Nat)
    (hs : ∀ c ∈ s, P c = false) (h0 : P (Char.ofNat 0) = false) :
    P (charAt s i) = false := by
  unfold charAt
  by_cases hi : i < s.length
  · rw [List.getD_eq_getElem s _ hi]
    exact hs _ (List.getElem_mem hi)
  · rw [List.getD_eq_default s _ (by omega)]
    exact h0

theorem hasSubstr_mem :
    ∀ hay needle : List Char, hasSubstr hay needle = true →
      ∀ c ∈ needle, c ∈ hay := by
  intro hay
  induction hay with
  | nil =>
    intro needle h c hc
    unfold hasSubstr at h
    split at h
    · rename_i hp
      have := List.isPrefixOf_iff_prefix.mp hp
      have : needle = [] := List.prefix_nil.mp this
      subst this
      simp at hc
    · simp at h
  | cons x t ih =>
    intro needle h c hc
    unfold hasSubstr at h
    split at h
    · rename_i hp
      exact (List.isPrefixOf_iff_prefix.mp hp).subset hc
    · exact List.mem_cons_of_mem x (ih needle h c hc)

theorem plain_pyLower (c : Char) (hc : isPlainLowerAsciiOrSpace c = true) :
    pyLower c = c := by
  simp only [isPlainLowerAsciiOrSpace, Bool.or_eq_true, Bool.and_eq_true,
    decide_eq_true_eq] at hc
  unfold pyLower
  rw [if_neg (by simp only [Bool.and_eq_true, decide_eq_true_eq, not_and]; omega),
    if_neg (by simp only [isCyrUpper, Bool.and_eq_true, decide_eq_true_eq, not_and]; omega),
    if_neg (by simp only [isYoUpper, decide_eq_true_eq]; omega)]

theorem lowerList_plain (s : List Char)
    (hs : ∀ c ∈ s, isPlainLowerAsciiOrSpace c = true) : lowerList s = s := by
  unfold lowerList
  rw [List.map_congr_left fun c hc => plain_pyLower c (hs c hc)]
  exact List.map_id s

theorem hasSubstr_false_of_exotic (s needle : List Char)
    (hs : ∀ c ∈ s, isPlainLowerAsciiOrSpace c = true)
    (c0 : Char) (hc0 : c0 ∈ needle) (hbig : 122 < c0.toNat) :
    hasSubstr (lowerList s) needle = false := by
  rw [lowerList_plain s hs]
  cases h : hasSubstr s needle with
  | false => rfl
  | true =>
    have := hs c0 (hasSubstr_mem s needle h c0 hc0)
    simp only [isPlainLowerAsciiOrSpace, Bool.or_eq_true, Bool.and_eq_true,
      decide_eq_true_eq] at this
    omega

theorem isAsciiDigit_toNat (c : Char) (h : isAsciiDigit c = true) :
    48 ≤ c.toNat ∧ c.toNat ≤ 57 := by
  simp only [isAsciiDigit, Bool.and_eq_true, decide_eq_true_eq, Char.le_def] at h
  exact h

theorem matchDigits_none (s : List Char) (p n : Nat) (hn : 0 < n)
    (hs : ∀ c ∈ s, isAsciiDigit c = false) : matchDigits s p n = none := by
  unfold matchDigits
  rw [if_neg]
  intro hall
  rw [List.all_eq_true] at hall
  have h0 := hall 0 (List.mem_range.mpr hn)
  have := charAt_false isAsciiDigit s (p + 0) hs (by decide)
  rw [this] at h0
  exact absurd h0 (by simp)

theorem withSep_none (s : List Char) (p : Nat) (k : Nat → Option Nat)
    (hk : ∀ q, k q = none) : withSep s p k = none := by
  unfold withSep
  split <;> simp [hk]

theorem phoneTail_none (s : List Char)
    (hs : ∀ c ∈ s, isAsciiDigit c = false) (p : Nat) :
    phoneTail s p = none := by
  unfold phoneTail
  apply withSep_none
  intro q
  rw [matchDigits_none s q 3 (by omega) hs]
  rfl

theorem matchPhoneAt_none (s : List Char)
    (hs : ∀ c ∈ s, isAsciiDigit c = false) (p : Nat) :
    matchPhoneAt s p = none := by
  unfold matchPhoneAt
  simp only [phoneTail_none s hs, ite_self]
  rfl

theorem reSubGo_id (s : List Char) (matchAt : List Char → Nat → Option Nat)
    (repl : List Char) (hm : ∀ p, matchAt s p = none) :
    ∀ fuel p, reSubGo s matchAt repl p fuel = s.drop p := by
  intro fuel
  induction fuel with
  | zero => intro p; rfl
  | succ n ih =>
    intro p
    unfold reSubGo
    split
    case isTrue hp =>
      rw [hm p]
      rw [ih (p + 1)]
      rw [List.drop_eq_getElem_cons hp]
      unfold charAt
      rw [List.getD_eq_getElem s _ hp]
    case isFalse hp =>
      rw [List.drop_eq_nil_of_le (by omega)]

theorem reSub_id (s : List Char) (matchAt : List Char → Nat → Option Nat)
    (repl : List Char) (hm : ∀ p, matchAt s p = none) :
    reSub matchAt repl s = s := by
  unfold reSub
  rw [reSubGo_id s matchAt repl hm]
  exact List.drop_zero s

theorem downFirst_none (f : Nat → Option Nat) (h : ∀ n, f n = none) :
    ∀ N, downFirst f N = none := by
  intro N
  induction N with
  | zero => rfl
  | succ n ih => unfold downFirst; rw [h, ih]; rfl

theorem matchEmailAt_none (s : List Char)
    (hs : ∀ c ∈ s, (c = '@' : Bool) = false) (p : Nat) :
    matchEmailAt s p = none := by
  unfold matchEmailAt
  split
  · apply downFirst_none
    intro l
    rw [if_neg]
    have := charAt_false (fun c => c = '@') s (p + l) hs (by decide)
    simp only [decide_eq_true_eq] at this ⊢
    simp at this
    exact this
  · rfl

theorem phoneStage_plain (s : List Char)
    (hs : ∀ c ∈ s, isPlainLowerAsciiOrSpace c = true) : phoneStage s = s := by
  apply reSub_id
  intro p
  apply matchPhoneAt_none
  intro c hc
  have h := hs c hc
  cases hb : isAsciiDigit c with
  | false => rfl
  | true =>
    exfalso
    simp only [isPlainLowerAsciiOrSpace, Bool.or_eq_true, Bool.and_eq_true,
      decide_eq_true_eq] at h
    simp only [isAsciiDigit, Bool.and_eq_true, decide_eq_true_eq] at hb
    omega

theorem emailStage_plain (s : List Char)
    (hs : ∀ c ∈ s, isPlainLowerAsciiOrSpace c = true) : emailStage s = s := by
  apply reSub_id
  intro p
  apply matchEmailAt_none
  intro c hc
  have h := hs c hc
  simp only [decide_eq_false_iff_not]
  intro hEq
  subst hEq
  exact absurd h (by decide)

theorem addressStage_plain (s : List Char)
    (hs : ∀ c ∈ s, isPlainLowerAsciiOrSpace c = true) : addressStage s = s := by
  have key : ∀ kw ∈ addressKeywords, hasSubstr (lowerList s) kw = false := by
    intro kw hkw
    simp only [addressKeywords, List.mem_cons, List.not_mem_nil, or_false] at hkw
    rcases hkw with h | h | h | h | h | h | h | h | h | h <;> subst h <;>
      first
      | exact hasSubstr_false_of_exotic s _ hs 'у' (by decide) (by decide)
      | exact hasSubstr_false_of_exotic s _ hs 'п' (by decide) (by decide)
      | exact hasSubstr_false_of_exotic s _ hs 'д' (by decide) (by decide)
      | exact hasSubstr_false_of_exotic s _ hs 'к' (by decide) (by decide)
  unfold addressStage
  have go : ∀ kws : List (List Char),
      (∀ kw ∈ kws, hasSubstr (lowerList s) kw = false) →
      kws.foldl
        (fun cl kw =>
          if hasSubstr (lowerList cl) kw = true then
            reSub (matchAddrAt kw) (kw ++ (" [ADDRESS]").data) cl
          else cl) s = s := by
    intro kws
    induction kws with
    | nil => intro _; rfl
    | cons kw rest ih =>
      intro hall
      simp only [List.foldl_cons]
      rw [if_neg (by rw [hall kw (List.mem_cons_self kw rest)]; simp), ih]
      intro kw' h'
      exact hall kw' (List.mem_cons_of_mem kw h')
  exact go addressKeywords key

theorem hasNameTrigger_plain (s : List Char)
    (hs : ∀ c ∈ s, isPlainLowerAsciiOrSpace c = true) :
    hasNameTrigger s = false := by
  have e1 := hasSubstr_false_of_exotic s ("меня зовут".data) hs 'я' (by decide) (by decide)
  have e2 := hasSubstr_false_of_exotic s ("мое имя".data) hs 'я' (by decide) (by decide)
  have e3 := hasSubstr_false_of_exotic s ("я ".data) hs 'я' (by decide) (by decide)
  have e4 := hasSubstr_false_of_exotic s (" я ".data) hs 'я' (by decide) (by decide)
  simp [hasNameTrigger, nameTriggers, e1, e2, e3, e4]

theorem nameStage_no_trigger (s : List Char) (h : hasNameTrigger s = false) :
    nameStage s = s := by
  unfold nameStage
  rw [h]
  rfl

theorem head?_dropWhile_false (p : Char → Bool) :
    ∀ (l : List Char) (c : Char), (l.dropWhile p).head? = some c → p c = false := by
  intro l
  induction l with
  | nil => intro c h; simp [List.dropWhile] at h
  | cons x t ih =>
    intro c h
    rw [List.dropWhile_cons] at h
    split at h
    · exact ih c h
    · rename_i hx
      simp only [List.head?_cons, Option.some.injEq] at h
      subst h
      simpa using hx

theorem dropWhile_head_false (p : Char → Bool) (l : List Char)
    (h : ∀ c, l.head? = some c → p c = false) : l.dropWhile p = l := by
  cases l with
  | nil => rfl
  | cons x t =>
    rw [List.dropWhile_cons, if_neg (by rw [h x rfl]; simp)]

theorem getLast?_dropWhile (p : Char → Bool) :
    ∀ l : List Char, l.dropWhile p ≠ [] →
      (l.dropWhile p).getLast? = l.getLast? := by
  intro l
  induction l with
  | nil => intro h; simp [List.dropWhile] at h
  | cons x t ih =>
    intro h
    by_cases hpx : p x = true
    · rw [List.dropWhile_cons, if_pos hpx] at h ⊢
      have ht : t ≠ [] := by
        intro he
        subst he
        simp [List.dropWhile] at h
      rw [ih h]
      cases t with
      | nil => exact absurd rfl ht
      | cons y u => rw [List.getLast?_cons_cons]
    · rw [List.dropWhile_cons, if_neg hpx]

/-- A list whose first and last characters are non-whitespace is fixed by
`pyStrip`. -/
theorem pyStrip_of_trimmed (v : List Char)
    (hhead : ∀ c, v.head? = some c → isPySpace c = false)
    (hlast : ∀ c, v.getLast? = some c → isPySpace c = false) :
    pyStrip v = v := by
  unfold pyStrip
  rw [dropWhile_head_false isPySpace v hhead,
    dropWhile_head_false isPySpace v.reverse
      (fun c hc => hlast c (by rwa [List.head?_reverse] at hc)),
    List.reverse_reverse]

theorem pyStrip_idem (s : List Char) : pyStrip (pyStrip s) = pyStrip s := by
  apply pyStrip_of_trimmed
  · intro c hc
    unfold pyStrip at hc
    rw [List.head?_reverse] at hc
    have hne : ((s.dropWhile isPySpace).reverse).dropWhile isPySpace ≠ [] := by
      intro he
      rw [he] at hc
      simp at hc
    rw [getLast?_dropWhile isPySpace _ hne, List.getLast?_reverse] at hc
    exact head?_dropWhile_false isPySpace s c hc
  · intro c hc
    unfold pyStrip at hc
    rw [List.getLast?_reverse] at hc
    exact head?_dropWhile_false isPySpace _ c hc

theorem pyStrip_subset (s : List Char) (c : Char) (hc : c ∈ pyStrip s) :
    c ∈ s := by
  unfold pyStrip at hc
  rw [List.mem_reverse] at hc
  have h1 := (List.dropWhile_sublist
    (l := (s.dropWhile isPySpace).reverse) (p := isPySpace)).subset hc
  rw [List.mem_reverse] at h1
  exact (List.dropWhile_sublist (l := s) (p := isPySpace)).subset h1

theorem cleanContent_plain (s : List Char)
    (hs : ∀ c ∈ s, isPlainLowerAsciiOrSpace c = true) :
    cleanContent s = pyStrip s := by
  unfold cleanContent
  split
  · rename_i he
    rw [List.isEmpty_iff] at he
    subst he
    rfl
  · rw [phoneStage_plain s hs, emailStage_plain s hs, addressStage_plain s hs,
      nameStage_no_trigger s (hasNameTrigger_plain s hs)]

/-- C5 (counterexample): the sanitizer is not idempotent.  On
`"улица Ленина"` one application yields `"улица [ADDRESS]"`; applying the
sanitizer again re-matches the address pattern right after the keyword
(`[\s]*` plus one class character) and yields `"улица [ADDRESS][ADDRESS]"`,
so `sanitize(sanitize(x)) ≠ sanitize(x)`. -/
theorem claim_c5_counterexample :
    cleanContent ("улица Ленина".data) = ("улица [ADDRESS]".data) ∧
    cleanContent (cleanContent ("улица Ленина".data)) =
      ("улица [ADDRESS][ADDRESS]".data) ∧
    cleanContent (cleanContent ("улица Ленина".data)) ≠
      cleanContent ("улица Ленина".data) := by
  refine ⟨by decide, by decide, by decide⟩

/-- C5 (amended): the sanitizer is not idempotent in general — re-sanitizing
text that contains an address keyword followed by its `[ADDRESS]`
placeholder appends a second placeholder (see the counterexample).
Idempotence does hold on inputs on which the address stage is inert; in
particular, on any text of lowercase ASCII letters and spaces every masking
stage is the identity, the sanitizer reduces to whitespace-stripping, and
`sanitize(sanitize(x)) = sanitize(x)`. -/
theorem claim_c5_amended (s : List Char)
    (hs : ∀ c ∈ s, isPlainLowerAsciiOrSpace c = true) :
    cleanContent (cleanContent s) = cleanContent s := by
  rw [cleanContent_plain s hs]
  have hs' : ∀ c ∈ pyStrip s, isPlainLowerAsciiOrSpace c = true := fun c hc =>
    hs c (pyStrip_subset s c hc)
  rw [cleanContent_plain _ hs', pyStrip_idem]

theorem claim_c5_amended_witness :
    (∀ c ∈ (" hello world ".data), isPlainLowerAsciiOrSpace c = true) ∧
    cleanContent (cleanContent (" hello world ".data)) =
      cleanContent (" hello world ".data) :=
  ⟨by decide, claim_c5_amended (" hello world ".data) (by decide)⟩

/-- C6 (counterexample): name masking is not restricted to tokens following
a self-introduction phrase.  In `"Гранат красивый. Меня зовут Иван"` the
capitalized token `Гранат` (a stone/brand-like word at the start, before the
phrase, not in the four-product exclusion list) is replaced by `[NAME]`
merely because the trigger `"меня зовут"` occurs later in the message:
the sanitized output no longer contains it. -/
theorem claim_c6_counterexample :
    cleanContent ("Гранат красивый. Меня зовут Иван".data) =
      ("[NAME] красивый. [NAME] зовут [NAME]".data) ∧
    hasSubstr (cleanContent ("Гранат красивый. Меня зовут Иван".data))
      ("Гранат".data) = false := by
  refine ⟨by decide, by decide⟩

/-- C6 (amended): the name heuristic is gated on the whole message, not on
token position.  If no trigger phrase (`"меня зовут"`, `"мое имя"`, `"я "`,
`" я "`) occurs anywhere in the lowercased message, the name-masking step
leaves the text unchanged — so every capitalized token is untouched.  When a
trigger occurs anywhere, the step replaces every `re.findall` match of
`\b[А-ЯЁ][а-яё]{2,}\b` that is outside the four-product exclusion list,
at all of its occurrences across the whole message — regardless of position
relative to the phrase; concretely, with the trigger in the middle of the
message, the pre-phrase token `Гранат` is masked while the excluded product
name `Янтарь` survives. -/
theorem claim_c6_amended :
    (∀ s : List Char, hasNameTrigger s = false → nameStage s = s) ∧
    (∀ s : List Char, hasNameTrigger s = true →
      nameStage s = (findNames s).foldl
        (fun cl name =>
          if nameExclusions.contains name then cl
          else replaceAll cl name (("[NAME]").data)) s) ∧
    nameStage ("Гранат хорош. Меня зовут Иван, люблю Янтарь".data) =
      ("[NAME] хорош. [NAME] зовут [NAME], люблю Янтарь".data) := by
  refine ⟨fun s h => nameStage_no_trigger s h, fun s h => ?_, by decide⟩
  unfold nameStage
  rw [if_pos h]

theorem claim_c6_amended_witness :
    (hasNameTrigger ("Люблю Янтарь и Гранат".data) = false ∧
     nameStage ("Люблю Янтарь и Гранат".data) =
       ("Люблю Янтарь и Гранат".data)) ∧
    (hasNameTrigger ("Меня зовут Иван, люблю Янтарь".data) = true ∧
     nameStage ("Меня зовут Иван, люблю Янтарь".data) =
       (findNames ("Меня зовут Иван, люблю Янтарь".data)).foldl
         (fun cl name =>
           if nameExclusions.contains name then cl
           else replaceAll cl name (("[NAME]").data))
         ("Меня зовут Иван, люблю Янтарь".data)) :=
  ⟨⟨by decide, claim_c6_amended.1 ("Люблю Янтарь и Гранат".data) (by decide)⟩,
   ⟨by decide, claim_c6_amended.2.1 ("Меня зовут Иван, люблю Янтарь".data)
      (by decide)⟩⟩

/-! ## Store lemmas (claims C1 and C8) -/

theorem insertChunksGo_noFault (embed : String → List ℚ) (mid : String) :
    ∀ (l : List (Nat × String)) (k : Nat) (st : RagState),
      insertChunksGo StoreFault.noFault embed mid l k st =
        (Except.ok (),
         { st with chunks := st.chunks ++
            l.filterMap fun ic =>
              if (pyStrip ic.2.data).isEmpty then none
              else some ⟨mid, ic.1, ic.2, embed ic.2⟩ }) := by
  intro l
  induction l with
  | nil => intro k st; simp [insertChunksGo]
  | cons ic rest ih =>
    intro k st
    obtain ⟨i, c⟩ := ic
    unfold insertChunksGo
    by_cases hblank : (pyStrip c.data).isEmpty = true
    · rw [if_pos hblank, ih]
      have hblank' : pyStrip c.data = [] := List.isEmpty_iff.mp hblank
      simp [List.filterMap_cons, hblank']
    · rw [if_neg hblank, if_neg (by simp), ih]
      have hblank' : pyStrip c.data ≠ [] := by
        intro he
        exact hblank (List.isEmpty_iff.mpr he)
      simp [List.filterMap_cons, hblank']

theorem storeMessage_eq (fault : StoreFault) (embed : String → List ℚ)
    (st : RagState) (messageId customerId senderType content : String)
    (dealId intent category : Option String) (now : Nat) :
    storeMessage fault embed st messageId customerId senderType content
        dealId intent category now =
      ((storeMessageBody fault embed st messageId customerId senderType
          content dealId intent category now).1.isOk,
       (storeMessageBody fault embed st messageId customerId senderType
          content dealId intent category now).2) := by
  unfold storeMessage
  cases h : storeMessageBody fault embed st messageId customerId senderType
      content dealId intent category now with
  | mk e st' =>
    cases e with
    | ok u => cases u; rfl
    | error u => cases u; rfl

theorem expectedChunkRows_mid (embed : String → List ℚ) (mid cleaned : String) :
    ∀ r ∈ expectedChunkRows embed mid cleaned, r.messageId = mid := by
  intro r hr
  unfold expectedChunkRows at hr
  obtain ⟨ic, _, hic⟩ := List.mem_filterMap.mp hr
  split at hic
  · exact absurd hic (by simp)
  · have := Option.some.inj hic
    subst this
    rfl

/-- C1 (counterexample): `store_message` is not atomic.  With one old chunk
stored for `"m1"`, a storage failure at the first chunk `INSERT` (after the
first transaction already committed the message upsert and the old-chunk
delete) leaves the store with the old chunk deleted and no new chunk
written — neither the pre-call state nor the new chunk set (which has one
chunk) — and returns `False`. -/
theorem claim_c1_counterexample :
    storeMessage (StoreFault.failChunkInsert 0) (fun _ => [0])
        ⟨[], [⟨("m1"), 0, ("old"), []⟩]⟩ ("m1") ("c1") ("customer") ("hi")
        none none none 7 =
      (false,
       ⟨[⟨("m1"), ("c1"), none, ("customer"), ("hi"), ("hi"), 7, none, none⟩],
        []⟩) ∧
    (⟨[⟨("m1"), ("c1"), none, ("customer"), ("hi"), ("hi"), 7, none, none⟩],
        []⟩ : RagState) ≠ ⟨[], [⟨("m1"), 0, ("old"), []⟩]⟩ ∧
    expectedChunkRows (fun _ => [0]) ("m1") ("hi") =
      [⟨("m1"), 0, ("hi"), [0]⟩] := by
  refine ⟨by decide, by decide, by decide⟩

/-- C1 (amended): the first transaction of `store_message` (message upsert
plus old-chunk delete) is atomic, and in the absence of storage failures the
whole upsert is exact: the post state carries the message row, all chunks of
other messages untouched, and for `message_id` exactly the new chunk set —
re-ingesting and querying returns exactly the new chunk count, never
new-plus-old.  A failure inside the first transaction leaves the store in
its pre-call state.  (What fails is atomicity across the chunk loop: each
chunk inserts in its own transaction, so a mid-loop failure strands the
store between the two states — the counterexample.) -/
theorem claim_c1_amended (embed : String → List ℚ) (st : RagState)
    (messageId customerId senderType content : String)
    (dealId intent category : Option String) (now : Nat) :
    storeMessage StoreFault.noFault embed st messageId customerId senderType
        content dealId intent category now =
      (true,
       ⟨st.messages.filter (fun m => m.messageId ≠ messageId) ++
          [⟨messageId, customerId, dealId, senderType, content,
            String.mk (cleanContent content.data), now, intent, category⟩],
        st.chunks.filter (fun c => c.messageId ≠ messageId) ++
          expectedChunkRows embed messageId
            (String.mk (cleanContent content.data))⟩) ∧
    (storeMessage StoreFault.noFault embed st messageId customerId senderType
        content dealId intent category now).2.chunks.filter
        (fun c => c.messageId = messageId) =
      expectedChunkRows embed messageId (String.mk (cleanContent content.data)) ∧
    storeMessage StoreFault.failFirstTxn embed st messageId customerId
        senderType content dealId intent category now = (false, st) := by
  have hbody : storeMessageBody StoreFault.noFault embed st messageId
      customerId senderType content dealId intent category now =
      (Except.ok (),
       ⟨st.messages.filter (fun m => m.messageId ≠ messageId) ++
          [⟨messageId, customerId, dealId, senderType, content,
            String.mk (cleanContent content.data), now, intent, category⟩],
        st.chunks.filter (fun c => c.messageId ≠ messageId) ++
          expectedChunkRows embed messageId
            (String.mk (cleanContent content.data))⟩) := by
    simp only [storeMessageBody]
    rw [insertChunksGo_noFault]
    rfl
  have hmain : storeMessage StoreFault.noFault embed st messageId customerId
      senderType content dealId intent category now =
      (true,
       ⟨st.messages.filter (fun m => m.messageId ≠ messageId) ++
          [⟨messageId, customerId, dealId, senderType, content,
            String.mk (cleanContent content.data), now, intent, category⟩],
        st.chunks.filter (fun c => c.messageId ≠ messageId) ++
          expectedChunkRows embed messageId
            (String.mk (cleanContent content.data))⟩) := by
    rw [storeMessage_eq, hbody]
    rfl
  refine ⟨hmain, ?_, ?_⟩
  · rw [hmain]
    simp only [List.filter_append]
    rw [List.filter_filter]
    have h1 : (st.chunks.filter fun c =>
        decide (c.messageId = messageId) && decide (c.messageId ≠ messageId)) = [] := by
      apply List.filter_eq_nil_iff.mpr
      intro a _
      by_cases h : a.messageId = messageId <;> simp [h]
    have h2 : ((expectedChunkRows embed messageId
        (String.mk (cleanContent content.data))).filter
        fun c => c.messageId = messageId) =
        expectedChunkRows embed messageId (String.mk (cleanContent content.data)) := by
      apply List.filter_eq_self.mpr
      intro a ha
      simp [expectedChunkRows_mid _ _ _ a ha]
    rw [h1, h2]
    rfl
  · rfl

theorem claim_c1_amended_witness :
    storeMessage StoreFault.noFault (fun _ => [1])
        ⟨[], [⟨("m1"), 0, ("old"), []⟩]⟩ ("m1") ("c1") ("customer") ("hi")
        none none none 7 =
      (true,
       ⟨[⟨("m1"), ("c1"), none, ("customer"), ("hi"), ("hi"), 7, none, none⟩],
        [⟨("m1"), 0, ("hi"), [1]⟩]⟩) := by
  have h := (claim_c1_amended (fun _ => [1])
    ⟨[], [⟨("m1"), 0, ("old"), []⟩]⟩ ("m1") ("c1") ("customer") ("hi")
    none none none 7).1
  rw [h]
  decide

theorem insertChunksGo_fail (embed : String → List ℚ) (mid : String) (k : Nat) :
    ∀ (l : List (Nat × String)) (k0 : Nat) (st : RagState), k0 ≤ k →
      k < k0 + (l.filter fun ic => !(pyStrip ic.2.data).isEmpty).length →
      (insertChunksGo (StoreFault.failChunkInsert k) embed mid l k0 st).1 =
        Except.error () := by
  intro l
  induction l with
  | nil => intro k0 st h1 h2; simp at h2; omega
  | cons ic rest ih =>
    intro k0 st h1 h2
    obtain ⟨i, c⟩ := ic
    unfold insertChunksGo
    by_cases hblank : (pyStrip c.data).isEmpty = true
    · rw [if_pos hblank]
      apply ih _ _ h1
      rw [List.filter_cons] at h2
      simp [hblank] at h2
      omega
    · rw [if_neg hblank]
      by_cases hk : k = k0
      · rw [if_pos (by simp [hk])]
      · rw [if_neg (by simp; omega)]
        apply ih _ _ (by omega)
        rw [List.filter_cons] at h2
        simp [hblank] at h2
        omega

/-- C8 (counterexample): storage errors are not surfaced.  A failure at the
first chunk `INSERT` of `store_message` makes the body raise, but the
`except` handler swallows it: the caller receives the ordinary return value
`False` (with the partially-updated store), not an error.  Likewise a
storage failure inside `cleanup_old_messages` is swallowed and the caller
receives `0`. -/
theorem claim_c8_counterexample :
    (storeMessageBody (StoreFault.failChunkInsert 0) (fun _ => [0])
        ⟨[], [⟨("m1"), 0, ("old"), []⟩]⟩ ("m1") ("c1") ("customer") ("hi")
        none none none 7).1.isOk = false ∧
    storeMessage (StoreFault.failChunkInsert 0) (fun _ => [0])
        ⟨[], [⟨("m1"), 0, ("old"), []⟩]⟩ ("m1") ("c1") ("customer") ("hi")
        none none none 7 =
      (false,
       ⟨[⟨("m1"), ("c1"), none, ("customer"), ("hi"), ("hi"), 7, none, none⟩],
        []⟩) ∧
    (cleanupBody true ⟨[⟨("m2"), ("c2"), none, ("customer"), ("x"), ("x"), 1,
        none, none⟩], []⟩ 5).1.isOk = false ∧
    cleanupOldMessages true ⟨[⟨("m2"), ("c2"), none, ("customer"), ("x"), ("x"),
        1, none, none⟩], []⟩ 5 =
      (0, ⟨[⟨("m2"), ("c2"), none, ("customer"), ("x"), ("x"), 1, none, none⟩],
        []⟩) := by
  refine ⟨by decide, by decide, by decide, by decide⟩

/-- C8 (amended): storage failures never propagate out of the store: a
failure at any executed chunk `INSERT` makes `store_message` return `False`
(never raise), and any storage failure makes `cleanup_old_messages` return
`0` with the store unchanged — errors are logged and swallowed, not
surfaced as a `StoreUnavailable`-style error to the caller. -/
theorem claim_c8_amended (embed : String → List ℚ) (st : RagState)
    (messageId customerId senderType content : String)
    (dealId intent category : Option String) (now : Nat) (k : Nat)
    (hk : k < insertCount (String.mk (cleanContent content.data))) :
    (storeMessage (StoreFault.failChunkInsert k) embed st messageId customerId
        senderType content dealId intent category now).1 = false ∧
    (∀ (st2 : RagState) (cutoff : Nat),
      cleanupOldMessages true st2 cutoff = (0, st2)) := by
  constructor
  · rw [storeMessage_eq]
    have hbody : (storeMessageBody (StoreFault.failChunkInsert k) embed st
        messageId customerId senderType content dealId intent category
        now).1 = Except.error () := by
      simp only [storeMessageBody]
      exact insertChunksGo_fail embed messageId k _ 0 _ (by omega)
        (by simpa [insertCount] using hk)
    rw [hbody]
    rfl
  · intro st2 cutoff
    rfl

theorem claim_c8_amended_witness :
    0 < insertCount (String.mk (cleanContent ("hi".data))) ∧
    (storeMessage (StoreFault.failChunkInsert 0) (fun _ => [0])
        ⟨[], []⟩ ("m1") ("c1") ("customer") ("hi") none none none 7).1 = false ∧
    (∀ (st2 : RagState) (cutoff : Nat),
      cleanupOldMessages true st2 cutoff = (0, st2)) :=
  ⟨by decide,
   claim_c8_amended (fun _ => [0]) ⟨[], []⟩ ("m1") ("c1") ("customer") ("hi")
     none none none 7 0 (by decide)⟩

/-! ## Retriever lemmas (claims C2 and C10) -/

theorem insertDesc_length (f : Fragment) :
    ∀ l : List Fragment, (insertDesc f l).length = l.length + 1 := by
  intro l
  induction l with
  | nil => rfl
  | cons g rest ih =>
    unfold insertDesc
    split
    · simp
    · simp [ih]

theorem sortBySimDesc_length (l : List Fragment) :
    (sortBySimDesc l).length = l.length := by
  suffices h : ∀ (l : List Fragment) (acc : List Fragment),
      (l.foldl (fun a f => insertDesc f a) acc).length = acc.length + l.length by
    simpa using h l []
  intro l
  induction l with
  | nil => intro acc; simp
  | cons f rest ih =>
    intro acc
    simp only [List.foldl_cons]
    rw [ih, insertDesc_length]
    simp only [List.length_cons]
    omega

/-- C2 (counterexample): the cascade does not short-circuit after the
narrow tier.  With a truthy `deal_id` and a narrow tier already producing
five fragments (≥ the 5-result target), `get_relevant_context` still issues
the owner-wide customer search (search call list `[1, 2]`, not `[1]`), and
the returned diagnostics record two searches performed with both
thresholds — not "only tier 1 ran". -/
theorem claim_c2_counterexample :
    (getRelevantContext (some ("D1"))
        [⟨("a"), 0, some ("D1"), 95/100⟩, ⟨("b"), 0, some ("D1"), 9/10⟩,
         ⟨("c"), 0, some ("D1"), 85/100⟩, ⟨("d"), 0, some ("D1"), 8/10⟩,
         ⟨("e"), 0, some ("D1"), 78/100⟩]
        [⟨("f"), 0, some ("D2"), 7/10⟩] []).searchCalls = [1, 2] ∧
    (getRelevantContext (some ("D1"))
        [⟨("a"), 0, some ("D1"), 95/100⟩, ⟨("b"), 0, some ("D1"), 9/10⟩,
         ⟨("c"), 0, some ("D1"), 85/100⟩, ⟨("d"), 0, some ("D1"), 8/10⟩,
         ⟨("e"), 0, some ("D1"), 78/100⟩]
        [⟨("f"), 0, some ("D2"), 7/10⟩] []).metadata.searchesPerformed = 2 ∧
    (getRelevantContext (some ("D1"))
        [⟨("a"), 0, some ("D1"), 95/100⟩, ⟨("b"), 0, some ("D1"), 9/10⟩,
         ⟨("c"), 0, some ("D1"), 85/100⟩, ⟨("d"), 0, some ("D1"), 8/10⟩,
         ⟨("e"), 0, some ("D1"), 78/100⟩]
        [⟨("f"), 0, some ("D2"), 7/10⟩] []).metadata.similarityThresholdsUsed =
      [highSimilarityThreshold, defaultSimilarityThreshold] := by
  refine ⟨rfl, rfl, rfl⟩

/-- C2 (amended): the tier order is fixed (narrow, owner-wide,
intent/category fallback), but only the third tier is gated by the 5-result
target: the narrow deal search runs iff `deal_id` is truthy, the owner-wide
customer search is always issued (even when the narrow tier already produced
5 or more fragments), and the fallback runs iff tiers 1–2 collected fewer
than 5 fragments. -/
theorem claim_c2_amended (dealId : Option String)
    (dealResults customerResults fallbackResults : List Fragment) :
    (getRelevantContext dealId dealResults customerResults
        fallbackResults).searchCalls =
      (if pyTruthy dealId then [1] else []) ++ [2] ++
        (if (collectedTier12 dealId dealResults customerResults).length < 5
         then [3] else []) ∧
    2 ∈ (getRelevantContext dealId dealResults customerResults
        fallbackResults).searchCalls ∧
    (1 ∈ (getRelevantContext dealId dealResults customerResults
        fallbackResults).searchCalls ↔ pyTruthy dealId = true) ∧
    (3 ∈ (getRelevantContext dealId dealResults customerResults
        fallbackResults).searchCalls ↔
      (collectedTier12 dealId dealResults customerResults).length < 5) := by
  have hcalls : (getRelevantContext dealId dealResults customerResults
      fallbackResults).searchCalls =
      (if pyTruthy dealId then [1] else []) ++ [2] ++
        (if (collectedTier12 dealId dealResults customerResults).length < 5
         then [3] else []) := rfl
  refine ⟨hcalls, ?_, ?_, ?_⟩ <;> rw [hcalls]
  · simp
  · constructor
    · intro h
      by_cases hd : pyTruthy dealId = true
      · exact hd
      · exfalso
        simp only [Bool.not_eq_true] at hd
        rw [hd] at h
        split at h <;> simp_all
    · intro h
      rw [h]
      simp
  · constructor
    · intro h
      by_cases h5 : (collectedTier12 dealId dealResults customerResults).length < 5
      · exact h5
      · exfalso
        rw [if_neg h5] at h
        split at h <;> simp_all
    · intro h
      rw [if_pos h]
      simp

/-- C10 (confirmed): `raw_fragments` is always truncated to at most 10
entries (`sorted_fragments[:10]`), while `total_relevant_fragments` reports
the full count of deduplicated matches, so the two can legitimately differ —
as the concrete run with 12 unique matches shows (10 raw fragments,
total 12). -/
theorem claim_c10_raw_fragments_cap :
    (∀ (dealId : Option String)
        (dealResults customerResults fallbackResults : List Fragment),
      (getRelevantContext dealId dealResults customerResults
          fallbackResults).rawFragments.length ≤ 10 ∧
      (getRelevantContext dealId dealResults customerResults
          fallbackResults).totalRelevantFragments =
        (dedupFragments (collectedTier12 dealId dealResults customerResults ++
          (if (collectedTier12 dealId dealResults customerResults).length < 5
           then fallbackResults else []))).length) ∧
    (getRelevantContext none []
        ((List.range 12).map fun i => ⟨toString i, i, none, (i : ℚ)⟩)
        []).rawFragments.length = 10 ∧
    (getRelevantContext none []
        ((List.range 12).map fun i => ⟨toString i, i, none, (i : ℚ)⟩)
        []).totalRelevantFragments = 12 := by
  refine ⟨?_, by decide, by decide⟩
  intro dealId dealResults customerResults fallbackResults
  constructor
  · simp only [getRelevantContext]
    rw [List.length_take]
    exact min_le_left _ _
  · simp only [getRelevantContext]
    rw [sortBySimDesc_length]
    by_cases h5 : (collectedTier12 dealId dealResults customerResults).length < 5
    · simp only [collectedTier12, excludeDeal] at h5 ⊢
      rw [if_pos h5, if_pos h5]
    · simp only [collectedTier12, excludeDeal] at h5 ⊢
      rw [if_neg h5, if_neg h5, List.append_nil]

/-! ## Indexer queue lemmas (claim C9) -/

theorem enqueueN_length : ∀ n : Nat, (enqueueN n).queue.length = n := by
  intro n
  induction n with
  | zero => rfl
  | succ m ih =>
    show ((indexMessageAsync (enqueueN m) ("c1") ("customer") ("привет")
      none none m ("u")).2).queue.length = m + 1
    unfold indexMessageAsync
    simp [ih]

/-- C9 (counterexample): the ingestion queue is unbounded.
`ConversationIndexer.__init__` creates `asyncio.Queue()` with the default
`maxsize = 0`, which asyncio treats as infinite: no fixed finite capacity
bounds the number of queued records — `n` enqueues against an idle indexer
leave all `n` records queued, for every `n`. -/
theorem claim_c9_counterexample :
    (¬ ∃ C : Nat, ∀ n : Nat, (enqueueN n).queue.length ≤ C) ∧
    asyncioQueueMaxsize = 0 := by
  constructor
  · rintro ⟨C, hC⟩
    have h := hC (C + 1)
    rw [enqueueN_length] at h
    omega
  · rfl

/-- C9 (amended): the queue is unbounded rather than bounded-with-blocking:
`index_message_async` never blocks (a `maxsize = 0` asyncio queue is never
full, so `put` always completes immediately) and never drops a record —
after `n` enqueues against an idle indexer the queue holds exactly `n`
records — but no finite capacity is ever enforced (the counterexample). -/
theorem claim_c9_amended (n : Nat) :
    (enqueueN n).queue.length = n ∧
    queueFull asyncioQueueMaxsize ((enqueueN n).queue.length) = false ∧
    putWouldBlock asyncioQueueMaxsize n = false := by
  refine ⟨enqueueN_length n, ?_, ?_⟩ <;> rfl

/-! ## Cosine-similarity lemmas (claim C7) -/

theorem sumSq_nonneg (a : List ℝ) : 0 ≤ sumSq a := by
  induction a with
  | nil => simp [sumSq]
  | cons x t ih =>
    unfold sumSq at ih ⊢
    simp only [List.map_cons, List.sum_cons]
    nlinarith [mul_self_nonneg x]

theorem dotList_nil_right (a : List ℝ) : dotList a [] = 0 := by
  cases a <;> simp [dotList]

theorem dotList_comm : ∀ a b : List ℝ, dotList a b = dotList b a := by
  intro a
  induction a with
  | nil => intro b; cases b <;> simp [dotList]
  | cons x t ih =>
    intro b
    cases b with
    | nil => simp [dotList]
    | cons y u =>
      unfold dotList at ih ⊢
      simp only [List.zipWith_cons_cons, List.sum_cons]
      rw [ih u, mul_comm]

theorem dotList_zero_left :
    ∀ a b : List ℝ, sumSq a = 0 → dotList a b = 0 := by
  intro a
  induction a with
  | nil => intro b _; cases b <;> simp [dotList]
  | cons x t ih =>
    intro b h
    unfold sumSq at h
    simp only [List.map_cons, List.sum_cons] at h
    have ht : 0 ≤ sumSq t := sumSq_nonneg t
    unfold sumSq at ht
    have hx : x = 0 := by nlinarith [mul_self_nonneg x]
    have ht0 : (t.map fun z => z * z).sum = 0 := by nlinarith [mul_self_nonneg x]
    cases b with
    | nil => simp [dotList]
    | cons y u =>
      unfold dotList at ih ⊢
      simp only [List.zipWith_cons_cons, List.sum_cons]
      rw [ih u (by unfold sumSq; exact ht0), hx]
      ring

theorem dotList_cauchy :
    ∀ a b : List ℝ, (dotList a b) ^ 2 ≤ sumSq a * sumSq b := by
  intro a
  induction a with
  | nil =>
    intro b
    have h1 : dotList [] b = 0 := by cases b <;> simp [dotList]
    rw [h1]
    have := sumSq_nonneg ([] : List ℝ)
    have := sumSq_nonneg b
    nlinarith
  | cons x t ih =>
    intro b
    cases b with
    | nil =>
      rw [dotList_nil_right]
      have := sumSq_nonneg (x :: t)
      have h0 : sumSq ([] : List ℝ) = 0 := by simp [sumSq]
      rw [h0]
      nlinarith
    | cons y u =>
      have hd := ih u
      have hs := sumSq_nonneg t
      have hu := sumSq_nonneg u
      have hcons : ∀ (z : ℝ) (l : List ℝ), sumSq (z :: l) = z * z + sumSq l := by
        intro z l
        simp [sumSq]
      have hdot : dotList (x :: t) (y :: u) = x * y + dotList t u := by
        simp [dotList]
      rw [hdot, hcons, hcons]
      rcases eq_or_lt_of_le hu with hu0 | hupos
      · have hd0 : dotList t u = 0 := by
          rw [dotList_comm]
          exact dotList_zero_left u t hu0.symm
        rw [hd0, ← hu0]
        nlinarith [mul_self_nonneg (x * y), mul_self_nonneg x, mul_self_nonneg y]
      · -- multiply the certificate (x·t − d·y)² + (y² + t)(s·t − d²) ≥ 0 by t
        nlinarith [sq_nonneg (x * sumSq u - dotList t u * y),
          mul_nonneg (add_nonneg (mul_self_nonneg y) hu)
            (sub_nonneg.mpr hd), sq_nonneg (x * y), mul_self_nonneg y,
          mul_pos hupos hupos]

theorem vecNorm_sq (a : List ℝ) : vecNorm a * vecNorm a = sumSq a := by
  unfold vecNorm
  exact Real.mul_self_sqrt (sumSq_nonneg a)

theorem vecNorm_zero_sumSq (a : List ℝ) (h : vecNorm a = 0) : sumSq a = 0 := by
  have := vecNorm_sq a
  rw [h] at this
  linarith

theorem dotList_map_div (x y : ℝ) :
    ∀ a b : List ℝ,
      dotList (a.map fun v => v / x) (b.map fun v => v / y) =
        dotList a b / (x * y) := by
  intro a
  induction a with
  | nil => intro b; cases b <;> simp [dotList]
  | cons v t ih =>
    intro b
    cases b with
    | nil => simp [dotList_nil_right, dotList]
    | cons w u =>
      unfold dotList at ih ⊢
      simp only [List.map_cons, List.zipWith_cons_cons, List.sum_cons]
      rw [ih u, add_div, div_mul_div_comm]

/-- C7 (confirmed): the similarity both scan sites use —
`sklearn.metrics.pairwise.cosine_similarity` modelled over the reals — is
symmetric, always lies in `[-1, 1]`, and a zero-norm vector never causes a
division error (the normalization keeps zero rows as zero) and yields
similarity 0. -/
theorem claim_c7_cosine (a b : List ℝ) :
    cosineSimilarity a b = cosineSimilarity b a ∧
    -1 ≤ cosineSimilarity a b ∧ cosineSimilarity a b ≤ 1 ∧
    ((vecNorm a = 0 ∨ vecNorm b = 0) → cosineSimilarity a b = 0) := by
  have zeroCase : ∀ u v : List ℝ, vecNorm u = 0 → cosineSimilarity u v = 0 := by
    intro u v hu
    unfold cosineSimilarity normalizeVec
    rw [if_pos hu]
    exact dotList_zero_left u _ (vecNorm_zero_sumSq u hu)
  have symm : cosineSimilarity a b = cosineSimilarity b a := by
    unfold cosineSimilarity
    exact dotList_comm _ _
  have himp : (vecNorm a = 0 ∨ vecNorm b = 0) → cosineSimilarity a b = 0 := by
    intro h
    rcases h with h | h
    · exact zeroCase a b h
    · rw [symm]
      exact zeroCase b a h
  have hbounds : -1 ≤ cosineSimilarity a b ∧ cosineSimilarity a b ≤ 1 := by
    by_cases ha : vecNorm a = 0
    · rw [himp (Or.inl ha)]; norm_num
    · by_cases hb : vecNorm b = 0
      · rw [himp (Or.inr hb)]; norm_num
      · have hA : 0 < vecNorm a := by
          have := Real.sqrt_nonneg (sumSq a)
          unfold vecNorm at ha ⊢
          rcases lt_or_eq_of_le this with h | h
          · exact h
          · exact absurd h.symm ha
        have hB : 0 < vecNorm b := by
          have := Real.sqrt_nonneg (sumSq b)
          unfold vecNorm at hb ⊢
          rcases lt_or_eq_of_le this with h | h
          · exact h
          · exact absurd h.symm hb
        have hcos : cosineSimilarity a b =
            dotList a b / (vecNorm a * vecNorm b) := by
          unfold cosineSimilarity normalizeVec
          rw [if_neg ha, if_neg hb]
          exact dotList_map_div (vecNorm a) (vecNorm b) a b
        have hC := dotList_cauchy a b
        have hAB : 0 < vecNorm a * vecNorm b := mul_pos hA hB
        have hsq : (dotList a b) ^ 2 ≤ (vecNorm a * vecNorm b) ^ 2 := by
          have h1 := vecNorm_sq a
          have h2 := vecNorm_sq b
          nlinarith
        rw [hcos]
        constructor
        · rw [le_div_iff₀ hAB]
          nlinarith [sq_nonneg (dotList a b + vecNorm a * vecNorm b)]
        · rw [div_le_one₀ hAB]
          nlinarith [sq_nonneg (dotList a b - vecNorm a * vecNorm b)]
  exact ⟨symm, hbounds.1, hbounds.2, himp⟩

theorem claim_c7_cosine_witness :
    cosineSimilarity [(0 : ℝ), 0] [3, 4] = 0 :=
  (claim_c7_cosine [(0 : ℝ), 0] [3, 4]).2.2.2
    (Or.inl (by norm_num [vecNorm, sumSq]))

end RomanRag
